import Mathlib

/-!
# Verification of the mixed-build coordination core (`android/bazel.go`)

A shallow embedding of the Bazel mixed-build coordination code of the soong
repository: the `cqueryKey` request ledger (`bazelContext.cquery`), the
query-output demultiplexer and completeness check of
`bazelContext.InvokeBazel`, the action splicer
(`bazelSingleton.GenerateBuildActions`), the configuration reader
(`bazelPathsFromConfig`), the invocation driver
(`builtinBazelRunner.issueBazelCommand`) and the id helpers (`getCqueryId`,
`getArchString`), together with the two-pass driver `runMixedModeBuild`.

Go strings are modelled as `String` (with `String.utf8ByteSize` standing in
for Go's byte-counting `len`); Go maps are modelled as association lists,
looked up front-to-back so that consing a binding is Go's map assignment;
Go's `panic` and a non-nil `error` are modelled with `Except`; process and
file-system effects are made explicit parameters.
-/

namespace Soong

/-- Association-list lookup, first match wins.  Models a Go map read when
the list keeps the most recent binding first. -/
def lookupAssoc {α β : Type} [DecidableEq α] : List (α × β) → α → Option β
  | [], _ => none
  | (k, v) :: rest, key => if key = k then some v else lookupAssoc rest key

/-- The `Name` field of `android.ArchType`, the only field the mixed-build
core reads (`getArchString` uses `key.archType.Name`). -/
structure ArchType where
  Name : String
deriving DecidableEq, Repr

/-- The Go `cqueryRequest` interface: a request type exposes `Name()` and
`StarlarkFunctionBody()`.  Modelled as a record of those two observations;
equality is structural, as for Go interface values holding comparable
implementations. -/
structure cqueryRequest where
  name : String
  starlarkFunctionBody : String
deriving DecidableEq, Repr

/-- Map key to describe bazel cquery requests (`cqueryKey` in the source). -/
structure cqueryKey where
  label : String
  requestType : cqueryRequest
  archType : ArchType
deriving DecidableEq, Repr

/-- `getArchString`: the arch name of the key, defaulting to `"x86_64"` when
the name is empty (Go's `len(arch) > 0` counts bytes). -/
def getArchString (key : cqueryKey) : String :=
  let arch := key.archType.Name
  if arch.utf8ByteSize > 0 then arch else "x86_64"

/-- `canonicalizeLabel`: prefix a sourcetree-level label with the
`@sourceroot` repository (`strings.HasPrefix(label, "//")`, taken on the
label's character data). -/
def canonicalizeLabel (label : String) : String :=
  if ("//".data.isPrefixOf label.data) then "@sourceroot" ++ label
  else "@sourceroot//" ++ label

/-- `getCqueryId`: `<canonicalized label>|<arch string>`. -/
def getCqueryId (key : cqueryKey) : String :=
  canonicalizeLabel key.label ++ "|" ++ getArchString key

/-- `bazel.BuildStatement`, as consumed by the action splicer in
`bazelSingleton.GenerateBuildActions`: mnemonic, shell command, input and
output paths, and an optional depfile. -/
structure BuildStatement where
  Command : String
  Depfile : Option String
  OutputPaths : List String
  InputPaths : List String
  Mnemonic : String
deriving DecidableEq, Repr

/-- The mutable state of a `bazelContext`: the pending `requests` set
(a Go `map[cqueryKey]bool` holding `true` per queued key), the `results`
map (`map[cqueryKey]string`), and the parsed Bazel `buildStatements`. -/
structure bazelContext where
  requests : List cqueryKey
  results : List (cqueryKey × String)
  buildStatements : List BuildStatement
deriving Repr

/-- Insertion into the `requests` set (`context.requests[key] = true`):
a set-semantics insert, idempotent on keys already present. -/
def insertRequest (key : cqueryKey) (requests : List cqueryKey) : List cqueryKey :=
  if key ∈ requests then requests else key :: requests

/-- `bazelContext.cquery`: return the cached result when `results` has the
key, otherwise queue the key in `requests` (the source takes
`requestMutex` around the insert) and report not-ready. -/
def bazelContext.cquery (context : bazelContext) (label : String)
    (requestType : cqueryRequest) (archType : ArchType) :
    (String × Bool) × bazelContext :=
  let key : cqueryKey := ⟨label, requestType, archType⟩
  match lookupAssoc context.results key with
  | some result => ((result, true), context)
  | none =>
      (("", false), { context with requests := insertRequest key context.requests })

/-! ## The query-result demultiplexer

`InvokeBazel` splits the cquery stdout on `"\n"` (`strings.Split`), keeps
the lines containing `">>"` (`strings.Contains`), and splits each kept line
on the first `">>"` (`strings.SplitN(line, ">>", 2)`).  The splitting is
modelled on `List Char` (a Go string's character data). -/

/-- `strings.Split(s, "\n")` on character lists. -/
def splitLines : List Char → List (List Char)
  | [] => [[]]
  | c :: rest =>
      if c = '\n' then [] :: splitLines rest
      else
        match splitLines rest with
        | [] => [[c]]
        | line :: lines => (c :: line) :: lines

/-- `strings.SplitN(line, ">>", 2)` combined with the `strings.Contains`
guard: `some (id, payload)` when the line contains `">>"`, where `id` is
everything before the first occurrence and `payload` everything after it;
`none` when the line has no `">>"`. -/
def splitFirstTag : List Char → Option (List Char × List Char)
  | [] => none
  | [_] => none
  | c1 :: c2 :: rest =>
      if c1 = '>' ∧ c2 = '>' then some ([], rest)
      else (splitFirstTag (c2 :: rest)).map fun p => (c1 :: p.1, p.2)

/-- The query-result pass over the cquery stdout: the `(id, payload)`
pairs written into `cqueryResults`, in line order. -/
def parseCqueryOutput (cqueryOutput : List Char) : List (List Char × List Char) :=
  (splitLines cqueryOutput).filterMap splitFirstTag

/-- A Go map built by iterated assignment: the binding written last wins,
so the lookup scans the pair list back-to-front. -/
def lookupLast {α β : Type} [DecidableEq α] (pairs : List (α × β)) (key : α) : Option β :=
  lookupAssoc pairs.reverse key

/-- The completeness check of `InvokeBazel`: every queued request must have
its cquery id in the parsed output, the first missing one aborts with the
`missing result for bazel target ...` error. -/
def collectResults (requests : List cqueryKey)
    (cqueryResults : List (List Char × List Char))
    (cqueryOutput cqueryErr : String) : Except String (List (cqueryKey × String)) :=
  match requests with
  | [] => .ok []
  | val :: rest =>
      match lookupLast cqueryResults (getCqueryId val).data with
      | some cqueryResult =>
          (collectResults rest cqueryResults cqueryOutput cqueryErr).map
            fun tail => (val, String.mk cqueryResult) :: tail
      | none =>
          .error ("missing result for bazel target " ++ getCqueryId val ++
            ". query output: [" ++ cqueryOutput ++ "], cquery err: [" ++ cqueryErr ++ "]")

/-! ## Configuration (`bazelPaths`, `bazelPathsFromConfig`) -/

/-- The `bazelPaths` value struct of resolved locations. -/
structure bazelPaths where
  homeDir : String
  bazelPath : String
  outputBase : String
  workspaceDir : String
  buildDir : String
  metricsDir : String
deriving DecidableEq, Repr

/-- The five required environment settings, in the order
`bazelPathsFromConfig` checks them. -/
def requiredBazelEnvVars : List String :=
  ["BAZEL_HOME", "BAZEL_PATH", "BAZEL_OUTPUT_BASE", "BAZEL_WORKSPACE", "BAZEL_METRICS_DIR"]

/-- Go's `fmt` rendering of a `[]string` under `%s`: the elements joined by
single spaces, in brackets (the joining part). -/
def goJoinSpace : List String → String
  | [] => ""
  | [x] => x
  | x :: rest => x ++ " " ++ goJoinSpace rest

/-- The `missingEnvVars` accumulation of `bazelPathsFromConfig`: each of
the five settings, in check order, counts as present only when Go's `len`
of its value exceeds 1 byte (`len(c.Getenv(...)) > 1` in the source). -/
def missingEnvVars (getenv : String → String) : List String :=
  (if (getenv "BAZEL_HOME").utf8ByteSize > 1 then [] else ["BAZEL_HOME"]) ++
  (if (getenv "BAZEL_PATH").utf8ByteSize > 1 then [] else ["BAZEL_PATH"]) ++
  (if (getenv "BAZEL_OUTPUT_BASE").utf8ByteSize > 1 then [] else ["BAZEL_OUTPUT_BASE"]) ++
  (if (getenv "BAZEL_WORKSPACE").utf8ByteSize > 1 then [] else ["BAZEL_WORKSPACE"]) ++
  (if (getenv "BAZEL_METRICS_DIR").utf8ByteSize > 1 then [] else ["BAZEL_METRICS_DIR"])

/-- `bazelPathsFromConfig`: reads the five required settings from the
environment; every non-present name is accumulated into `missingEnvVars`
before the single error is produced. -/
def bazelPathsFromConfig (getenv : String → String) (buildDir : String) :
    Except String bazelPaths :=
  if (missingEnvVars getenv).length > 0 then
    .error ("missing required env vars to use bazel: [" ++
      goJoinSpace (missingEnvVars getenv) ++ "]")
  else
    .ok { homeDir := getenv "BAZEL_HOME"
        , bazelPath := getenv "BAZEL_PATH"
        , outputBase := getenv "BAZEL_OUTPUT_BASE"
        , workspaceDir := getenv "BAZEL_WORKSPACE"
        , buildDir := buildDir
        , metricsDir := getenv "BAZEL_METRICS_DIR" }

/-- `bazelPaths.intermediatesDir`: `filepath.Join(p.buildDir, "bazel")`. -/
def intermediatesDir (p : bazelPaths) : String :=
  p.buildDir ++ "/bazel"

/-! ## The invocation driver (`builtinBazelRunner.issueBazelCommand`) -/

/-- A bazel command: the subcommand and its query expression or label. -/
structure bazelCommand where
  command : String
  expression : String
deriving DecidableEq, Repr

/-- Modelled from the spec: `shared.BazelMetricsFilename` is not among the
source files; the spec requires only "a metrics/profile output path unique
per run_name", so the model places a per-run profile file under the
metrics directory. -/
def BazelMetricsFilename (p : bazelPaths) (runName : String) : String :=
  p.metricsDir ++ "/" ++ runName ++ ".profile"

/-- `pwdPrefix`: `PWD=/proc/self/cwd` except on darwin. -/
def pwdPrefix (goos : String) : String :=
  if ¬ goos = "darwin" then "PWD=/proc/self/cwd" else ""

/-- The flag list `issueBazelCommand` builds for a command: pinned output
base, the subcommand and expression, pinned package path and profile file,
canonicalized platform/toolchain pins, download disabling, then the
caller's extra flags. -/
def issueBazelCommandFlags (paths : bazelPaths) (runName : String)
    (command : bazelCommand) (extraFlags : List String) : List String :=
  ["--output_base=" ++ paths.outputBase,
   command.command,
   command.expression,
   "--package_path=%workspace%/" ++ intermediatesDir paths,
   "--profile=" ++ BazelMetricsFilename paths runName,
   "--platforms=" ++ canonicalizeLabel "//build/bazel/platforms:android_x86_64",
   "--extra_toolchains=" ++ canonicalizeLabel "//prebuilts/clang/host/linux-x86:all",
   "--host_platform=" ++ canonicalizeLabel "//build/bazel/platforms:linux_x86_64",
   "--experimental_repository_disable_download"] ++ extraFlags

/-- The environment `issueBazelCommand` gives the child process:
`os.Environ()` plus `HOME`, the pwd prefix and the toolchain-detection
override. -/
def issueBazelCommandEnv (osEnviron : List String) (goos : String)
    (paths : bazelPaths) : List String :=
  osEnviron ++ ["HOME=" ++ paths.homeDir, pwdPrefix goos,
    "BAZEL_DO_NOT_DETECT_CPP_TOOLCHAIN=1"]

/-- Go's `%s` rendering of an `exec.Cmd`: the binary path followed by the
space-joined arguments. -/
def issueBazelCommandLine (paths : bazelPaths) (runName : String)
    (command : bazelCommand) (extraFlags : List String) : String :=
  paths.bazelPath ++ " " ++ goJoinSpace (issueBazelCommandFlags paths runName command extraFlags)

/-- The outcome of running the external process: captured stdout and
stderr on a zero exit, captured stderr on a non-zero exit. -/
inductive ProcessResult where
  | success (stdout stderr : String)
  | failure (stderr : String)
deriving DecidableEq, Repr

/-- `builtinBazelRunner.issueBazelCommand`, with the process effect made an
explicit `ProcessResult` argument: returns `(stdout, stderr, error)`; a
non-zero exit yields the `bazel command failed ...` error carrying the
command line, the environment and the captured stderr. -/
def issueBazelCommand (osEnviron : List String) (goos : String)
    (paths : bazelPaths) (runName : String) (command : bazelCommand)
    (extraFlags : List String) (procResult : ProcessResult) :
    String × String × Option String :=
  match procResult with
  | .success stdout stderr => (stdout, stderr, none)
  | .failure stderr =>
      ("", stderr,
        some ("bazel command failed. command: [" ++
          issueBazelCommandLine paths runName command extraFlags ++
          "], env: [" ++ goJoinSpace (issueBazelCommandEnv osEnviron goos paths) ++
          "], error [" ++ stderr ++ "]"))

/-! ## `InvokeBazel`

The three bazel commands one `InvokeBazel` run issues, and the run itself.
File-system effects (creating the intermediates directory, writing the four
generated files and `cquery.out`) are modelled as succeeding; the process
effects are supplied by the `runner` argument, and the aquery JSON parser
(`bazel.AqueryBuildStatements`, not among the source files) is an explicit
function argument. -/

/-- The cquery command `InvokeBazel` issues
(`kind(rule, deps(//:buildroot))` with starlark output). -/
def cqueryCommand : bazelCommand :=
  ⟨"cquery", "kind(rule, deps(//:buildroot))"⟩

/-- The aquery command `InvokeBazel` issues (`deps(//:buildroot)`). -/
def aqueryCommand : bazelCommand :=
  ⟨"aquery", "deps(//:buildroot)"⟩

/-- The phony-root build command `InvokeBazel` issues. -/
def phonyRootCommand : bazelCommand :=
  ⟨"build", "//:phonyroot"⟩

/-- The workspace-relative path of the generated `buildroot.cquery`
starlark file. -/
def cqueryFileRelpath (paths : bazelPaths) : String :=
  intermediatesDir paths ++ "/buildroot.cquery"

/-- The extra flags of the cquery invocation: starlark output, evaluated
through the generated starlark file. -/
def cqueryExtraFlags (paths : bazelPaths) : List String :=
  ["--output=starlark", "--starlark:file=" ++ cqueryFileRelpath paths]

/-- `bazelContext.InvokeBazel`: issue the cquery command, demultiplex its
stdout into per-request results (failing on the first missing request),
issue the aquery command and parse its output into build statements, issue
the phony-root build, and clear the request set.  Returns the list of
issued bazel commands alongside the outcome.

The source assigns the cquery invocation's error to `err` and then
immediately reassigns `err` to the result of writing `cquery.out`, so the
invocation error is discarded before either `if err != nil` check runs;
the model mirrors that by dropping the third component of the cquery
`runner` call (file writes succeed, leaving `err` nil). -/
def InvokeBazel (paths : bazelPaths) (requests : List cqueryKey)
    (runner : bazelCommand → List String → String × String × Option String)
    (aqueryBuildStatements : String → Except String (List BuildStatement)) :
    List bazelCommand × Except String bazelContext :=
  let cqueryInvocation := runner cqueryCommand (cqueryExtraFlags paths)
  let cqueryOutput := cqueryInvocation.1
  let cqueryErr := cqueryInvocation.2.1
  let cqueryResults := parseCqueryOutput cqueryOutput.data
  match collectResults requests cqueryResults cqueryOutput cqueryErr with
  | .error e => ([cqueryCommand], .error e)
  | .ok results =>
      let aqueryInvocation := runner aqueryCommand ["--output=jsonproto"]
      match aqueryInvocation.2.2 with
      | some e => ([cqueryCommand, aqueryCommand], .error e)
      | none =>
          match aqueryBuildStatements aqueryInvocation.1 with
          | .error e => ([cqueryCommand, aqueryCommand], .error e)
          | .ok buildStatements =>
              let buildInvocation := runner phonyRootCommand []
              match buildInvocation.2.2 with
              | some e => ([cqueryCommand, aqueryCommand, phonyRootCommand], .error e)
              | none =>
                  ([cqueryCommand, aqueryCommand, phonyRootCommand],
                    .ok ⟨[], results, buildStatements⟩)

/-- The config-node target names of the generated root BUILD file: one
`config_node` named after each distinct arch string occurring among the
requests (`labelsByArch` in `mainBuildFileContents`). -/
def configNodeNames (requests : List cqueryKey) : List String :=
  (requests.map getArchString).dedup

/-! ## The action splicer (`bazelSingleton.GenerateBuildActions`) -/

/-- A `RuleBuilder` command as the splicer populates it: the command text
and the implicit outputs, inputs and depfile (each a path routed through
`PathForBazelOut`, kept here as the raw path string). -/
structure RuleBuilderCommand where
  text : String
  implicitOutputs : List String
  implicits : List String
  depfile : Option String
deriving DecidableEq, Repr

/-- One native rule registered by the splicer: its command, the restat
mark, the rule name `bazel <index>` and the mnemonic description. -/
structure RegisteredRule where
  cmd : RuleBuilderCommand
  restat : Bool
  ruleName : String
  description : String
deriving DecidableEq, Repr

/-- The rule the splicer registers for one build statement: the command
prefixed with `cd <outputBase>/execroot/__main__ && `, the statement's
outputs as implicit outputs, inputs as implicits, the depfile when
present, restat set, named `bazel <index>` with the mnemonic as
description. -/
def spliceBuildStatement (outputBase : String) (index : Nat)
    (stmt : BuildStatement) : RegisteredRule :=
  { cmd := { text := "cd " ++ outputBase ++ "/execroot/__main__ && " ++ stmt.Command
           , implicitOutputs := stmt.OutputPaths
           , implicits := stmt.InputPaths
           , depfile := stmt.Depfile }
  , restat := true
  , ruleName := "bazel " ++ toString index
  , description := stmt.Mnemonic }

/-- The splicing loop of `bazelSingleton.GenerateBuildActions` over the
build statements (indexed from `index`): a statement whose command has
fewer than 1 character panics with `unhandled build statement: <stmt>`
(the error carries the offending statement), aborting the whole
registration; otherwise each statement registers one rule. -/
def generateBuildActions (outputBase : String) :
    Nat → List BuildStatement → Except BuildStatement (List RegisteredRule)
  | _, [] => .ok []
  | index, stmt :: rest =>
      if stmt.Command.length < 1 then .error stmt
      else
        (generateBuildActions outputBase (index + 1) rest).map
          fun rules => spliceBuildStatement outputBase index stmt :: rules

/-! ## The two-pass driver (`runMixedModeBuild`) -/

/-- The phases `runMixedModeBuild` runs: an analysis pass
(`bootstrap.Main`) or the single `InvokeBazel` call. -/
inductive BuildPhase where
  | analysisPass
  | invokeBazelPhase
deriving DecidableEq, Repr

/-- `runMixedModeBuild` as its phase trace: first analysis pass, one
`InvokeBazel`, and (unless `InvokeBazel` failed, which exits the process)
the second analysis pass. -/
def runMixedModeBuild (invokeBazelOk : Bool) : List BuildPhase :=
  if invokeBazelOk then [.analysisPass, .invokeBazelPhase, .analysisPass]
  else [.analysisPass, .invokeBazelPhase]

/-! ## Concrete instances used to exercise the theorems -/

/-- The inverse of `splitLines`: lines joined back with `'\n'`
(`strings.Join(lines, "\n")`), used to state that `splitLines` splits
exactly on newline characters. -/
def joinLines : List (List Char) → List Char
  | [] => []
  | [line] => line
  | line :: lines => line ++ '\n' :: joinLines lines

/-- A context holding one resolved result, for exercising `cquery`. -/
def ctxResolved : bazelContext :=
  ⟨[], [(⟨"//pkg:foo", ⟨"getOutputFiles", "return f"⟩, ⟨"arm64"⟩⟩, "out/foo.so")], []⟩

/-- An environment whose `BAZEL_HOME` is a single byte and whose other
settings are long enough: every required setting is non-empty. -/
def envOneByteHome : String → String :=
  fun v => if v = "BAZEL_HOME" then "x" else "/workspace/path"

/-- An environment with no bazel settings at all. -/
def envAllMissing : String → String := fun _ => ""

/-- A fully populated environment. -/
def envComplete : String → String :=
  fun v =>
    if v = "BAZEL_HOME" then "/home/user/.bazel"
    else if v = "BAZEL_PATH" then "/bin/bazel"
    else if v = "BAZEL_OUTPUT_BASE" then "/obase"
    else if v = "BAZEL_WORKSPACE" then "/workspace"
    else if v = "BAZEL_METRICS_DIR" then "/metrics"
    else ""

/-- Paths used by the concrete invocation runs. -/
def pathsDemo : bazelPaths :=
  ⟨"/home/user/.bazel", "/bin/bazel", "/obase", "/workspace", "out", "/metrics"⟩

/-- A runner whose cquery command exits non-zero (its reported error is
the one `issueBazelCommand` builds for it) while every other command
succeeds with empty output. -/
def runnerCqueryFails : bazelCommand → List String → String × String × Option String :=
  fun cmd extraFlags =>
    if cmd.command = "cquery" then
      issueBazelCommand [] "linux" pathsDemo "cquery-buildroot" cmd extraFlags (.failure "cquery stderr")
    else ("", "", none)

/-- A runner whose cquery stdout answers exactly the demo request and
whose other commands succeed. -/
def runnerDemo : bazelCommand → List String → String × String × Option String :=
  fun cmd _ =>
    if cmd.command = "cquery" then
      ("@sourceroot//pkg:foo|arm64>>out/foo.so\nsome other line", "", none)
    else ("", "", none)

/-- The demo request key resolved by `runnerDemo`. -/
def keyDemo : cqueryKey := ⟨"//pkg:foo", ⟨"getOutputFiles", "return f"⟩, ⟨"arm64"⟩⟩

/-- A build statement list with one well-formed statement. -/
def stmtsDemo : List BuildStatement :=
  [⟨"clang -c a.cc -o a.o", none, ["a.o"], ["a.cc"], "CppCompile"⟩]

/-- A runner all of whose commands succeed with empty output. -/
def runnerEmptyOutput : bazelCommand → List String → String × String × Option String :=
  fun _ _ => ("", "", none)

/-- A build statement list containing an empty-command statement. -/
def stmtsBad : List BuildStatement :=
  [⟨"touch ok", none, [], [], "Touch"⟩, ⟨"", none, ["x.o"], [], "Mystery"⟩]

/-! ## Theorems -/

/-- C10: a key whose arch name is empty gets the default arch string
`"x86_64"`, hence the same cquery id as the key with arch name
`"x86_64"`, hence the same entry of any parsed query-output map. -/
theorem getArchString_empty_default (label : String) (rt : cqueryRequest) :
    getArchString ⟨label, rt, ⟨""⟩⟩ = "x86_64" ∧
    getCqueryId ⟨label, rt, ⟨""⟩⟩ = getCqueryId ⟨label, rt, ⟨"x86_64"⟩⟩ ∧
    ∀ (m : List (List Char × List Char)),
      lookupLast m (getCqueryId ⟨label, rt, ⟨""⟩⟩).data =
        lookupLast m (getCqueryId ⟨label, rt, ⟨"x86_64"⟩⟩).data := by
  have harch : getArchString ⟨label, rt, ⟨""⟩⟩ = "x86_64" := rfl
  have hid : getCqueryId ⟨label, rt, ⟨""⟩⟩ = getCqueryId ⟨label, rt, ⟨"x86_64"⟩⟩ := by
    unfold getCqueryId
    rw [harch]
    have : getArchString ⟨label, rt, ⟨"x86_64"⟩⟩ = "x86_64" := rfl
    rw [this]
  exact ⟨harch, hid, fun m => by rw [hid]⟩

/-- C1: `cquery` returns `(cached value, true)` and leaves the context
untouched when `results` has the key; it returns `("", false)` and queues
the key in `requests` (leaving `results` untouched) when it does not; no
`cquery` call ever changes `results`, so a resolved key returns the
identical value on every subsequent call. -/
theorem cquery_spec (ctx : bazelContext) (label : String) (rt : cqueryRequest)
    (arch : ArchType) :
    (∀ v, lookupAssoc ctx.results ⟨label, rt, arch⟩ = some v →
      ctx.cquery label rt arch = ((v, true), ctx)) ∧
    (lookupAssoc ctx.results ⟨label, rt, arch⟩ = none →
      (ctx.cquery label rt arch).1 = ("", false) ∧
      (⟨label, rt, arch⟩ : cqueryKey) ∈ (ctx.cquery label rt arch).2.requests ∧
      (ctx.cquery label rt arch).2.results = ctx.results) ∧
    (∀ label2 rt2 arch2, ((ctx.cquery label2 rt2 arch2).2).results = ctx.results) ∧
    (∀ v, lookupAssoc ctx.results ⟨label, rt, arch⟩ = some v →
      ∀ label2 rt2 arch2,
        ((ctx.cquery label2 rt2 arch2).2).cquery label rt arch =
          ((v, true), (ctx.cquery label2 rt2 arch2).2)) := by
  have hcached : ∀ (c : bazelContext) (v : String),
      lookupAssoc c.results ⟨label, rt, arch⟩ = some v →
      c.cquery label rt arch = ((v, true), c) := by
    intro c v hv
    unfold bazelContext.cquery
    simp [hv]
  have hpreserve : ∀ label2 rt2 arch2,
      ((ctx.cquery label2 rt2 arch2).2).results = ctx.results := by
    intro label2 rt2 arch2
    unfold bazelContext.cquery
    cases hl : lookupAssoc ctx.results ⟨label2, rt2, arch2⟩ <;> simp [hl]
  refine ⟨fun v hv => hcached ctx v hv, ?_, hpreserve, ?_⟩
  · intro hnone
    have hkey : (⟨label, rt, arch⟩ : cqueryKey) ∈
        insertRequest ⟨label, rt, arch⟩ ctx.requests := by
      unfold insertRequest
      by_cases hmem : (⟨label, rt, arch⟩ : cqueryKey) ∈ ctx.requests <;> simp [hmem]
    unfold bazelContext.cquery
    simp [hnone, hkey]
  · intro v hv label2 rt2 arch2
    exact hcached _ v (by rw [hpreserve label2 rt2 arch2]; exact hv)

/-- C1 witness: on a context with one resolved key, `cquery` of that key
returns the cached value synchronously, repeats it after an intervening
call for a different key, and `cquery` of an unresolved key reports not
ready. -/
theorem cquery_spec_witness :
    ctxResolved.cquery "//pkg:foo" ⟨"getOutputFiles", "return f"⟩ ⟨"arm64"⟩ =
      (("out/foo.so", true), ctxResolved) ∧
    ((ctxResolved.cquery "//other:bar" ⟨"getOutputFiles", "return f"⟩ ⟨"arm64"⟩).2).cquery
        "//pkg:foo" ⟨"getOutputFiles", "return f"⟩ ⟨"arm64"⟩ =
      (("out/foo.so", true),
        (ctxResolved.cquery "//other:bar" ⟨"getOutputFiles", "return f"⟩ ⟨"arm64"⟩).2) ∧
    (ctxResolved.cquery "//other:bar" ⟨"getOutputFiles", "return f"⟩ ⟨"arm64"⟩).1 =
      ("", false) := by
  have h1 := cquery_spec ctxResolved "//pkg:foo" ⟨"getOutputFiles", "return f"⟩ ⟨"arm64"⟩
  have h2 := cquery_spec ctxResolved "//other:bar" ⟨"getOutputFiles", "return f"⟩ ⟨"arm64"⟩
  exact ⟨h1.1 _ (by decide), h1.2.2.2 _ (by decide) _ _ _, (h2.2.1 (by decide)).1⟩

/-- C7: for any label and request type, the `arm64` and `x86_64` keys are
distinct, their cquery ids are distinct, a request set containing both
yields the two distinct config-node targets `arm64` and `x86_64` in the
generated root BUILD file, and writing one key's entry into the results
map never touches the other key's entry. -/
theorem arch_tagging_no_collision (label : String) (rt : cqueryRequest) :
    let k1 : cqueryKey := ⟨label, rt, ⟨"arm64"⟩⟩
    let k2 : cqueryKey := ⟨label, rt, ⟨"x86_64"⟩⟩
    k1 ≠ k2 ∧
    getCqueryId k1 ≠ getCqueryId k2 ∧
    (∀ requests : List cqueryKey, k1 ∈ requests → k2 ∈ requests →
      "arm64" ∈ configNodeNames requests ∧ "x86_64" ∈ configNodeNames requests ∧
      ("arm64" : String) ≠ "x86_64") ∧
    (∀ (results : List (cqueryKey × String)) (v : String),
      lookupAssoc ((k1, v) :: results) k2 = lookupAssoc results k2 ∧
      lookupAssoc ((k2, v) :: results) k1 = lookupAssoc results k1) := by
  intro k1 k2
  have hne : k1 ≠ k2 := by
    simp [k1, k2, cqueryKey.mk.injEq, ArchType.mk.injEq]
  refine ⟨hne, ?_, ?_, ?_⟩
  · have e1 : getCqueryId k1 = canonicalizeLabel label ++ "|" ++ "arm64" := rfl
    have e2 : getCqueryId k2 = canonicalizeLabel label ++ "|" ++ "x86_64" := rfl
    intro h
    rw [e1, e2] at h
    have hl := congrArg String.length h
    rw [String.length_append, String.length_append,
      String.length_append, String.length_append] at hl
    have l1 : ("arm64" : String).length = 5 := rfl
    have l2 : ("x86_64" : String).length = 6 := rfl
    omega
  · intro requests h1 h2
    have a1 : getArchString k1 = "arm64" := rfl
    have a2 : getArchString k2 = "x86_64" := rfl
    refine ⟨?_, ?_, by decide⟩
    · exact List.mem_dedup.mpr (a1 ▸ List.mem_map_of_mem getArchString h1)
    · exact List.mem_dedup.mpr (a2 ▸ List.mem_map_of_mem getArchString h2)
  · intro results v
    constructor
    · simp [lookupAssoc, Ne.symm hne]
    · simp [lookupAssoc, hne]

/-- C7 witness: the concrete key `//pkg:foo` under `arm64` and `x86_64`:
distinct keys, distinct ids, both config-node targets present for a
two-element request set, and independent results-map entries. -/
theorem arch_tagging_no_collision_witness :
    (⟨"//pkg:foo", ⟨"getOutputFiles", "return f"⟩, ⟨"arm64"⟩⟩ : cqueryKey) ≠
      ⟨"//pkg:foo", ⟨"getOutputFiles", "return f"⟩, ⟨"x86_64"⟩⟩ ∧
    getCqueryId ⟨"//pkg:foo", ⟨"getOutputFiles", "return f"⟩, ⟨"arm64"⟩⟩ ≠
      getCqueryId ⟨"//pkg:foo", ⟨"getOutputFiles", "return f"⟩, ⟨"x86_64"⟩⟩ ∧
    "arm64" ∈ configNodeNames
      [⟨"//pkg:foo", ⟨"getOutputFiles", "return f"⟩, ⟨"arm64"⟩⟩,
       ⟨"//pkg:foo", ⟨"getOutputFiles", "return f"⟩, ⟨"x86_64"⟩⟩] ∧
    "x86_64" ∈ configNodeNames
      [⟨"//pkg:foo", ⟨"getOutputFiles", "return f"⟩, ⟨"arm64"⟩⟩,
       ⟨"//pkg:foo", ⟨"getOutputFiles", "return f"⟩, ⟨"x86_64"⟩⟩] := by
  have h := arch_tagging_no_collision "//pkg:foo" ⟨"getOutputFiles", "return f"⟩
  have hmem := h.2.2.1
    [⟨"//pkg:foo", ⟨"getOutputFiles", "return f"⟩, ⟨"arm64"⟩⟩,
     ⟨"//pkg:foo", ⟨"getOutputFiles", "return f"⟩, ⟨"x86_64"⟩⟩]
    (by decide) (by decide)
  exact ⟨h.1, h.2.1, hmem.1, hmem.2.1⟩

/-- The splicer's empty-command test (`len(buildStatement.Command) < 1`)
holds exactly of the empty string. -/
theorem length_lt_one_iff (s : String) : s.length < 1 ↔ s = "" := by
  rw [Nat.lt_one_iff]
  constructor
  · intro h
    cases s with
    | mk data =>
        have hdata : data = [] := List.length_eq_zero.mp h
        simp [hdata]
  · intro h
    subst h
    rfl

/-- A spliced command, starting with `cd `, is never empty. -/
theorem splice_text_ne_empty (t : String) : ¬ ("cd " ++ t) = "" := by
  intro h
  have hl := congrArg String.length h
  rw [String.length_append] at hl
  have h3 : ("cd " : String).length = 3 := rfl
  have h0 : ("" : String).length = 0 := rfl
  omega

/-- C4: whenever a build statement with an empty command is among the
statements, the splicer aborts with an error carrying that offending
statement; and whenever it succeeds, no statement had an empty command and
every registered rule's command is non-empty. -/
theorem generateBuildActions_empty_command (outputBase : String) (index : Nat)
    (stmts : List BuildStatement) :
    ((∃ s ∈ stmts, s.Command = "") →
      ∃ s, generateBuildActions outputBase index stmts = .error s ∧
        s ∈ stmts ∧ s.Command = "") ∧
    (∀ rules, generateBuildActions outputBase index stmts = .ok rules →
      (∀ s ∈ stmts, ¬ s.Command = "") ∧ (∀ r ∈ rules, ¬ r.cmd.text = "")) := by
  induction stmts generalizing index with
  | nil =>
      constructor
      · rintro ⟨s, hs, -⟩
        exact absurd hs (List.not_mem_nil s)
      · intro rules hrules
        refine ⟨fun s hs => absurd hs (List.not_mem_nil s), ?_⟩
        have : rules = [] := by
          simpa [generateBuildActions] using hrules
        subst this
        intro r hr
        exact absurd hr (List.not_mem_nil r)
  | cons s rest ih =>
      by_cases hc : s.Command.length < 1
      · have hcmd : s.Command = "" := (length_lt_one_iff s.Command).mp hc
        constructor
        · intro _
          refine ⟨s, ?_, List.mem_cons_self s rest, hcmd⟩
          simp [generateBuildActions, hc]
        · intro rules hrules
          simp [generateBuildActions, hc] at hrules
      · have hcmd : ¬ s.Command = "" := fun h => hc ((length_lt_one_iff s.Command).mpr h)
        constructor
        · rintro ⟨s', hs', hempty⟩
          rcases List.mem_cons.mp hs' with rfl | htail
          · exact absurd hempty hcmd
          · obtain ⟨e, he, hemem, hee⟩ := (ih (index + 1)).1 ⟨s', htail, hempty⟩
            refine ⟨e, ?_, List.mem_cons_of_mem s hemem, hee⟩
            simp [generateBuildActions, hc, he, Except.map]
        · intro rules hrules
          simp only [generateBuildActions, hc, if_false] at hrules
          cases hrest : generateBuildActions outputBase (index + 1) rest with
          | error e => rw [hrest] at hrules; exact absurd hrules (by simp [Except.map])
          | ok rules' =>
              rw [hrest] at hrules
              simp [Except.map] at hrules
              obtain ⟨hr, hrtail⟩ := (ih (index + 1)).2 rules' hrest
              subst hrules
              refine ⟨?_, ?_⟩
              · intro s' hs'
                rcases List.mem_cons.mp hs' with rfl | htail
                · exact hcmd
                · exact hr s' htail
              · intro r hrmem
                rcases List.mem_cons.mp hrmem with rfl | htail
                · exact splice_text_ne_empty _
                · exact hrtail r htail

/-- C4 witness: a statement list containing an empty-command statement
makes the splicer abort carrying that statement; the well-formed list
succeeds with non-empty rule commands. -/
theorem generateBuildActions_empty_command_witness :
    (∃ s, generateBuildActions "/obase" 0 stmtsBad = .error s ∧
      s ∈ stmtsBad ∧ s.Command = "") ∧
    (∀ s ∈ stmtsDemo, ¬ s.Command = "") := by
  have h1 := (generateBuildActions_empty_command "/obase" 0 stmtsBad).1
    ⟨⟨"", none, ["x.o"], [], "Mystery"⟩, by decide, rfl⟩
  have h2 := (generateBuildActions_empty_command "/obase" 0 stmtsDemo).2
    [spliceBuildStatement "/obase" 0 ⟨"clang -c a.cc -o a.o", none, ["a.o"], ["a.cc"], "CppCompile"⟩]
    (by rfl)
  exact ⟨h1, h2.1⟩

/-- C5: when every command is non-empty, the splicer registers exactly one
rule per build statement: the statement's command prefixed with the
directory change into the execution root, its outputs as implicit
outputs, its inputs as implicits, its depfile as the dependency file,
restat set, named `bazel <index>` and described by the mnemonic. -/
theorem generateBuildActions_registers_rules (outputBase : String) (index : Nat)
    (stmts : List BuildStatement) (h : ∀ s ∈ stmts, ¬ s.Command = "") :
    ∃ rules, generateBuildActions outputBase index stmts = .ok rules ∧
      rules.length = stmts.length ∧
      ∀ i s, stmts[i]? = some s → ∃ r, rules[i]? = some r ∧
        r.cmd.text = "cd " ++ outputBase ++ "/execroot/__main__ && " ++ s.Command ∧
        r.cmd.implicitOutputs = s.OutputPaths ∧
        r.cmd.implicits = s.InputPaths ∧
        r.cmd.depfile = s.Depfile ∧
        r.restat = true ∧
        r.ruleName = "bazel " ++ toString (index + i) ∧
        r.description = s.Mnemonic := by
  induction stmts generalizing index with
  | nil =>
      refine ⟨[], rfl, rfl, ?_⟩
      intro i s hs
      simp at hs
  | cons s rest ih =>
      have hcmd : ¬ s.Command.length < 1 :=
        fun hlt => h s (List.mem_cons_self s rest) ((length_lt_one_iff s.Command).mp hlt)
      obtain ⟨rules', hrest, hlen, hprops⟩ :=
        ih (index + 1) (fun s' hs' => h s' (List.mem_cons_of_mem s hs'))
      refine ⟨spliceBuildStatement outputBase index s :: rules', ?_, by simp [hlen], ?_⟩
      · simp [generateBuildActions, hcmd, hrest, Except.map]
      · intro i s' hs'
        match i with
        | 0 =>
            simp only [List.getElem?_cons_zero, Option.some.injEq] at hs'
            subst hs'
            exact ⟨spliceBuildStatement outputBase index s, by simp, rfl, rfl, rfl, rfl, rfl,
              by simp [spliceBuildStatement], rfl⟩
        | Nat.succ j =>
            simp only [List.getElem?_cons_succ] at hs' ⊢
            obtain ⟨r, hr, hprops'⟩ := hprops j s' hs'
            refine ⟨r, hr, ?_⟩
            have : index + 1 + j = index + (j + 1) := by omega
            rw [this] at hprops'
            exact hprops'

/-- C5 witness: the single `CppCompile` statement registers exactly one
rule with implicit output `a.o`, implicit input `a.cc`, restat, and the
`cd`-prefixed command. -/
theorem generateBuildActions_registers_rules_witness :
    ∃ rules, generateBuildActions "/obase" 0 stmtsDemo = .ok rules ∧
      rules.length = 1 ∧
      ∃ r, rules[0]? = some r ∧
        r.cmd.text = "cd /obase/execroot/__main__ && clang -c a.cc -o a.o" ∧
        r.cmd.implicitOutputs = ["a.o"] ∧
        r.cmd.implicits = ["a.cc"] ∧
        r.restat = true := by
  obtain ⟨rules, hok, hlen, hprops⟩ :=
    generateBuildActions_registers_rules "/obase" 0 stmtsDemo (by decide)
  obtain ⟨r, hr, ht, ho, hi, hd, hrs, -⟩ := hprops 0
    ⟨"clang -c a.cc -o a.o", none, ["a.o"], ["a.cc"], "CppCompile"⟩ rfl
  refine ⟨rules, hok, hlen, r, hr, ?_, ho, hi, hrs⟩
  rw [ht]
  rfl

/-- An occurrence inside `b` is an occurrence inside `a ++ b`. -/
theorem within_append_left {t b : List Char} (a : List Char) (h : t <:+: b) :
    t <:+: a ++ b := by
  obtain ⟨s, e, hb⟩ := h
  exact ⟨a ++ s, e, by rw [← hb]; simp [List.append_assoc]⟩

/-- Every element of a space-joined string list occurs in the joined
string. -/
theorem mem_goJoinSpace_within (xs : List String) (x : String) (h : x ∈ xs) :
    x.data <:+: (goJoinSpace xs).data := by
  induction xs with
  | nil => exact absurd h (List.not_mem_nil x)
  | cons y rest ih =>
      cases rest with
      | nil =>
          rcases List.mem_singleton.mp h with rfl
          exact List.infix_refl _
      | cons z zs =>
          have hgj : goJoinSpace (y :: z :: zs) = y ++ " " ++ goJoinSpace (z :: zs) := rfl
          rcases List.mem_cons.mp h with rfl | htail
          · refine ⟨[], (" " ++ goJoinSpace (z :: zs)).data, ?_⟩
            rw [hgj]
            simp [String.data_append]
          · have hin := ih htail
            rw [hgj]
            have hdata : (y ++ " " ++ goJoinSpace (z :: zs)).data =
                (y ++ " ").data ++ (goJoinSpace (z :: zs)).data := by
              simp [String.data_append]
            rw [hdata]
            exact within_append_left _ hin

/-- Membership in the accumulated missing list: exactly the required
settings whose value is at most one byte long. -/
theorem mem_missingEnvVars (getenv : String → String) (v : String) :
    v ∈ missingEnvVars getenv ↔
      v ∈ requiredBazelEnvVars ∧ (getenv v).utf8ByteSize ≤ 1 := by
  constructor
  · intro h
    simp only [missingEnvVars, List.mem_append, List.mem_ite_nil_left,
      List.mem_singleton] at h
    rcases h with ((((⟨hc, rfl⟩ | ⟨hc, rfl⟩) | ⟨hc, rfl⟩) | ⟨hc, rfl⟩) | ⟨hc, rfl⟩) <;>
      exact ⟨by simp [requiredBazelEnvVars], by omega⟩
  · rintro ⟨hv, hle⟩
    simp only [requiredBazelEnvVars, List.mem_cons, List.mem_singleton,
      List.not_mem_nil, or_false] at hv
    simp only [missingEnvVars, List.mem_append, List.mem_ite_nil_left,
      List.mem_singleton]
    rcases hv with rfl | rfl | rfl | rfl | rfl
    · exact Or.inl (Or.inl (Or.inl (Or.inl ⟨by omega, rfl⟩)))
    · exact Or.inl (Or.inl (Or.inl (Or.inr ⟨by omega, rfl⟩)))
    · exact Or.inl (Or.inl (Or.inr ⟨by omega, rfl⟩))
    · exact Or.inl (Or.inr ⟨by omega, rfl⟩)
    · exact Or.inr ⟨by omega, rfl⟩

/-- C6 counterexample: with `BAZEL_HOME` set to the single byte `"x"` and
every other required setting a long path, no setting is absent, yet
`bazelPathsFromConfig` returns an error (the source requires values longer
than one byte, not merely present ones). -/
theorem bazelPathsFromConfig_one_byte_cex :
    (∀ v ∈ requiredBazelEnvVars, envOneByteHome v ≠ "") ∧
    bazelPathsFromConfig envOneByteHome "out" =
      .error "missing required env vars to use bazel: [BAZEL_HOME]" := by
  exact ⟨by decide, rfl⟩

/-- C6 (amended): `bazelPathsFromConfig` returns an error iff at least one
of the five required settings has a value of at most one byte (in
particular when it is absent), and the error message names every such
setting, not only the first. -/
theorem bazelPathsFromConfig_spec (getenv : String → String) (buildDir : String) :
    ((∃ e, bazelPathsFromConfig getenv buildDir = .error e) ↔
      ∃ v ∈ requiredBazelEnvVars, (getenv v).utf8ByteSize ≤ 1) ∧
    (∀ e, bazelPathsFromConfig getenv buildDir = .error e →
      ∀ v ∈ requiredBazelEnvVars, (getenv v).utf8ByteSize ≤ 1 →
        v.data <:+: e.data) := by
  constructor
  · constructor
    · rintro ⟨e, he⟩
      unfold bazelPathsFromConfig at he
      by_cases hlen : (missingEnvVars getenv).length > 0
      · have hne : missingEnvVars getenv ≠ [] := by
          intro hnil
          rw [hnil] at hlen
          simp at hlen
        obtain ⟨v, hv⟩ := List.exists_mem_of_ne_nil _ hne
        obtain ⟨hvreq, hvle⟩ := (mem_missingEnvVars getenv v).mp hv
        exact ⟨v, hvreq, hvle⟩
      · rw [if_neg hlen] at he
        exact absurd he (by simp)
    · rintro ⟨v, hvreq, hvle⟩
      have hv : v ∈ missingEnvVars getenv := (mem_missingEnvVars getenv v).mpr ⟨hvreq, hvle⟩
      have hlen : (missingEnvVars getenv).length > 0 :=
        List.length_pos.mpr (List.ne_nil_of_mem hv)
      exact ⟨_, by unfold bazelPathsFromConfig; rw [if_pos hlen]⟩
  · intro e he v hvreq hvle
    have hv : v ∈ missingEnvVars getenv := (mem_missingEnvVars getenv v).mpr ⟨hvreq, hvle⟩
    unfold bazelPathsFromConfig at he
    by_cases hlen : (missingEnvVars getenv).length > 0
    · rw [if_pos hlen] at he
      have hee : e = "missing required env vars to use bazel: [" ++
          goJoinSpace (missingEnvVars getenv) ++ "]" := by
        cases he
        rfl
      subst hee
      have hjoin := mem_goJoinSpace_within (missingEnvVars getenv) v hv
      obtain ⟨s, t, hst⟩ := hjoin
      refine ⟨("missing required env vars to use bazel: [" : String).data ++ s,
        t ++ ("]" : String).data, ?_⟩
      rw [String.data_append, String.data_append, ← hst]
      simp [List.append_assoc]
    · rw [if_neg hlen] at he
      exact absurd he (by simp)

/-- C6 witness: with every setting absent, the error message names all
five settings. -/
theorem bazelPathsFromConfig_spec_witness :
    (∃ e, bazelPathsFromConfig envAllMissing "out" = .error e) ∧
    ("BAZEL_WORKSPACE" : String).data <:+:
      ("missing required env vars to use bazel: [BAZEL_HOME BAZEL_PATH " ++
        "BAZEL_OUTPUT_BASE BAZEL_WORKSPACE BAZEL_METRICS_DIR]" : String).data ∧
    (∀ v ∈ requiredBazelEnvVars, (envComplete v).utf8ByteSize > 1) ∧
    bazelPathsFromConfig envComplete "out" =
      .ok ⟨"/home/user/.bazel", "/bin/bazel", "/obase", "/workspace", "out", "/metrics"⟩ := by
  have h := bazelPathsFromConfig_spec envAllMissing "out"
  refine ⟨(h.1).mpr ⟨"BAZEL_HOME", by decide, by decide⟩, ?_, by decide, rfl⟩
  exact h.2 _ rfl "BAZEL_WORKSPACE" (by decide) (by decide)

/-- C8: evaluation at the failing input.  With an empty request set and a
cquery command whose process exits non-zero (so its `issueBazelCommand`
returns a non-nil error), `InvokeBazel` nevertheless returns success: the
source overwrites `err` with the result of writing `cquery.out` before
checking it, so the invocation error is silently swallowed. -/
theorem invokeBazel_swallows_cquery_error :
    (runnerCqueryFails cqueryCommand (cqueryExtraFlags pathsDemo)).2.2.isSome ∧
    (InvokeBazel pathsDemo [] runnerCqueryFails (fun _ => .ok [])).2 =
      .ok ⟨[], [], []⟩ := by
  exact ⟨rfl, rfl⟩

/-- One `InvokeBazel` run issues the cquery command once and then at most
one aquery and one phony-root build command, stopping at the first
failure; the full trace occurs exactly on the success path. -/
theorem invokeBazel_trace_shape (paths : bazelPaths) (requests : List cqueryKey)
    (runner : bazelCommand → List String → String × String × Option String)
    (aqueryBuildStatements : String → Except String (List BuildStatement)) :
    ((InvokeBazel paths requests runner aqueryBuildStatements).1 = [cqueryCommand] ∧
      ∃ e, (InvokeBazel paths requests runner aqueryBuildStatements).2 = .error e) ∨
    ((InvokeBazel paths requests runner aqueryBuildStatements).1 =
        [cqueryCommand, aqueryCommand] ∧
      ∃ e, (InvokeBazel paths requests runner aqueryBuildStatements).2 = .error e) ∨
    (InvokeBazel paths requests runner aqueryBuildStatements).1 =
      [cqueryCommand, aqueryCommand, phonyRootCommand] := by
  unfold InvokeBazel
  dsimp only
  repeat' split
  all_goals first
    | exact Or.inl ⟨rfl, _, rfl⟩
    | exact Or.inr (Or.inl ⟨rfl, _, rfl⟩)
    | exact Or.inr (Or.inr rfl)

/-- C9: the two-pass driver invokes `InvokeBazel` exactly once, and one
`InvokeBazel` run issues the cquery command exactly once, the aquery and
phony-root build commands at most once — exactly once on the success
path — regardless of how many requests are queued. -/
theorem invoke_commands_at_most_once (invokeBazelOk : Bool) (paths : bazelPaths)
    (requests : List cqueryKey)
    (runner : bazelCommand → List String → String × String × Option String)
    (aqueryBuildStatements : String → Except String (List BuildStatement)) :
    (runMixedModeBuild invokeBazelOk).count .invokeBazelPhase = 1 ∧
    (InvokeBazel paths requests runner aqueryBuildStatements).1.count cqueryCommand = 1 ∧
    (InvokeBazel paths requests runner aqueryBuildStatements).1.count aqueryCommand ≤ 1 ∧
    (InvokeBazel paths requests runner aqueryBuildStatements).1.count phonyRootCommand ≤ 1 ∧
    (∀ ctx, (InvokeBazel paths requests runner aqueryBuildStatements).2 = .ok ctx →
      (InvokeBazel paths requests runner aqueryBuildStatements).1.count aqueryCommand = 1 ∧
      (InvokeBazel paths requests runner aqueryBuildStatements).1.count phonyRootCommand = 1) := by
  refine ⟨by cases invokeBazelOk <;> decide, ?_⟩
  rcases invokeBazel_trace_shape paths requests runner aqueryBuildStatements with
    ⟨ht, e, he⟩ | ⟨ht, e, he⟩ | ht
  · rw [ht]
    refine ⟨by decide, by decide, by decide, ?_⟩
    intro ctx hctx
    rw [he] at hctx
    exact absurd hctx (by simp)
  · rw [ht]
    refine ⟨by decide, by decide, by decide, ?_⟩
    intro ctx hctx
    rw [he] at hctx
    exact absurd hctx (by simp)
  · rw [ht]
    exact ⟨by decide, by decide, by decide, fun ctx _ => ⟨by decide, by decide⟩⟩

/-- C9 witness: the successful demo run issues each command exactly once,
and both driver variants run `InvokeBazel` exactly once. -/
theorem invoke_commands_at_most_once_witness :
    (runMixedModeBuild true).count .invokeBazelPhase = 1 ∧
    (runMixedModeBuild false).count .invokeBazelPhase = 1 ∧
    (InvokeBazel pathsDemo [keyDemo] runnerDemo (fun _ => .ok [])).1.count cqueryCommand = 1 ∧
    (InvokeBazel pathsDemo [keyDemo] runnerDemo (fun _ => .ok [])).1.count aqueryCommand = 1 := by
  have h1 := invoke_commands_at_most_once true pathsDemo [keyDemo] runnerDemo (fun _ => .ok [])
  have h2 := invoke_commands_at_most_once false pathsDemo [keyDemo] runnerDemo (fun _ => .ok [])
  refine ⟨h1.1, h2.1, h1.2.1, ?_⟩
  exact (h1.2.2.2.2 ⟨[], [(keyDemo, "out/foo.so")], []⟩ (by rfl)).1

/-- `splitLines` never returns an empty list of lines. -/
theorem splitLines_ne_nil (cs : List Char) : splitLines cs ≠ [] := by
  induction cs with
  | nil => simp [splitLines]
  | cons c rest ih =>
      by_cases hc : c = '\n'
      · simp [splitLines, hc]
      · cases hsp : splitLines rest with
        | nil => exact absurd hsp ih
        | cons line lines => simp [splitLines, hc, hsp]

/-- Joining the split lines with newlines restores the input: `splitLines`
splits exactly at newline characters, losing nothing. -/
theorem joinLines_splitLines (cs : List Char) : joinLines (splitLines cs) = cs := by
  induction cs with
  | nil => rfl
  | cons c rest ih =>
      by_cases hc : c = '\n'
      · subst hc
        cases hsp : splitLines rest with
        | nil => exact absurd hsp (splitLines_ne_nil rest)
        | cons line lines =>
            have hrest := ih
            rw [hsp] at hrest
            simp only [splitLines, if_pos rfl, hsp, joinLines]
            simpa using hrest
      · cases hsp : splitLines rest with
        | nil => exact absurd hsp (splitLines_ne_nil rest)
        | cons line lines =>
            have hrest := ih
            rw [hsp] at hrest
            cases lines with
            | nil =>
                simp only [splitLines, hc, if_false, hsp, joinLines] at hrest ⊢
                rw [hrest]
            | cons m ms =>
                simp only [splitLines, hc, if_false, hsp, joinLines] at hrest ⊢
                rw [List.cons_append, hrest]

/-- No produced line contains a newline character. -/
theorem splitLines_no_newline (cs : List Char) :
    ∀ l ∈ splitLines cs, '\n' ∉ l := by
  induction cs with
  | nil =>
      intro l hl
      simp [splitLines] at hl
      simp [hl]
  | cons c rest ih =>
      intro l hl
      by_cases hc : c = '\n'
      · subst hc
        rw [show splitLines ('\n' :: rest) = [] :: splitLines rest from by
          simp [splitLines]] at hl
        rcases List.mem_cons.mp hl with rfl | hl
        · simp
        · exact ih l hl
      · cases hsp : splitLines rest with
        | nil => exact absurd hsp (splitLines_ne_nil rest)
        | cons line lines =>
            rw [show splitLines (c :: rest) = (c :: line) :: lines from by
              simp [splitLines, hc, hsp]] at hl
            rcases List.mem_cons.mp hl with rfl | hl
            · intro hmem
              rcases List.mem_cons.mp hmem with h1 | h2
              · exact hc h1.symm
              · exact ih line (by rw [hsp]; exact List.mem_cons_self _ _) h2
            · exact ih l (by rw [hsp]; exact List.mem_cons_of_mem _ hl)

/-- The guard of the demultiplexer: `splitFirstTag` succeeds exactly on
lines containing the `>>` separator. -/
theorem splitFirstTag_isSome_iff (l : List Char) :
    (splitFirstTag l).isSome ↔ ∃ a b, l = a ++ '>' :: '>' :: b := by
  induction l with
  | nil =>
      simp only [splitFirstTag, Option.isSome_none, Bool.false_eq_true, false_iff]
      rintro ⟨a, b, h⟩
      exact absurd h.symm (by simp)
  | cons c1 rest ih =>
      cases rest with
      | nil =>
          simp only [splitFirstTag, Option.isSome_none, Bool.false_eq_true, false_iff]
          rintro ⟨a, b, h⟩
          have hlen := congrArg List.length h
          simp [List.length_append] at hlen
          omega
      | cons c2 rest2 =>
          by_cases htag : c1 = '>' ∧ c2 = '>'
          · obtain ⟨rfl, rfl⟩ := htag
            rw [show splitFirstTag ('>' :: '>' :: rest2) = some ([], rest2) from by
              simp [splitFirstTag]]
            simp only [Option.isSome_some, true_iff]
            exact ⟨[], rest2, rfl⟩
          · rw [show splitFirstTag (c1 :: c2 :: rest2) =
                (splitFirstTag (c2 :: rest2)).map (fun p => (c1 :: p.1, p.2)) from by
              simp [splitFirstTag, htag]]
            rw [Option.isSome_map', ih]
            constructor
            · rintro ⟨a, b, hab⟩
              exact ⟨c1 :: a, b, by rw [List.cons_append, hab]⟩
            · rintro ⟨a, b, hab⟩
              cases a with
              | nil =>
                  simp only [List.nil_append, List.cons.injEq] at hab
                  exact absurd ⟨hab.1, hab.2.1⟩ htag
              | cons a0 as =>
                  simp only [List.cons_append, List.cons.injEq] at hab
                  exact ⟨as, b, hab.2⟩

/-- A successful `splitFirstTag` splits at the first `>>` occurrence: the
line is `id ++ ">>" ++ payload` and the id itself contains no `>>`
(everything after the first separator is the payload). -/
theorem splitFirstTag_eq_some (l : List Char) :
    ∀ id payload, splitFirstTag l = some (id, payload) →
      l = id ++ '>' :: '>' :: payload ∧ splitFirstTag id = none := by
  induction l with
  | nil => intro id payload h; simp [splitFirstTag] at h
  | cons c1 rest ih =>
      cases rest with
      | nil => intro id payload h; simp [splitFirstTag] at h
      | cons c2 rest2 =>
          intro id payload h
          by_cases htag : c1 = '>' ∧ c2 = '>'
          · obtain ⟨rfl, rfl⟩ := htag
            rw [show splitFirstTag ('>' :: '>' :: rest2) = some ([], rest2) from by
              simp [splitFirstTag]] at h
            obtain ⟨rfl, rfl⟩ : id = [] ∧ rest2 = payload := by
              simpa using h
            exact ⟨rfl, rfl⟩
          · rw [show splitFirstTag (c1 :: c2 :: rest2) =
                (splitFirstTag (c2 :: rest2)).map (fun p => (c1 :: p.1, p.2)) from by
              simp [splitFirstTag, htag]] at h
            rw [Option.map_eq_some'] at h
            obtain ⟨⟨pid, ppay⟩, hsub, hp⟩ := h
            obtain ⟨hpid, hpay⟩ : c1 :: pid = id ∧ ppay = payload := by
              simpa using hp
            subst hpid
            subst hpay
            obtain ⟨hl, hnone⟩ := ih pid ppay hsub
            constructor
            · rw [List.cons_append, hl]
            · cases hpid2 : pid with
              | nil => simp [splitFirstTag]
              | cons d ds =>
                  rw [hpid2] at hl
                  have hc2 : c2 = d := by
                    simpa using congrArg (fun t => t.headI) hl
                  have hne : ¬ (c1 = '>' ∧ d = '>') := by
                    rw [← hc2]
                    exact htag
                  rw [hpid2] at hnone
                  simp [splitFirstTag, hne, hnone]

/-- C3: the query-result pass splits the cquery stdout on newlines
(joining the lines back with newlines restores the input and no line
retains a newline), keeps exactly the lines containing `>>`, splits each
kept line at the first `>>` occurrence into an id containing no `>>` and
a payload holding everything after that first separator, and records the
`(id, payload)` pairs of the kept lines. -/
theorem cquery_output_parse_spec (cqueryOutput : List Char) :
    joinLines (splitLines cqueryOutput) = cqueryOutput ∧
    (∀ line ∈ splitLines cqueryOutput, '\n' ∉ line) ∧
    (∀ line ∈ splitLines cqueryOutput,
      ((splitFirstTag line).isSome ↔ ∃ a b, line = a ++ '>' :: '>' :: b)) ∧
    (∀ line ∈ splitLines cqueryOutput, ∀ id payload,
      splitFirstTag line = some (id, payload) →
        line = id ++ '>' :: '>' :: payload ∧ ¬ ∃ a b, id = a ++ '>' :: '>' :: b) ∧
    parseCqueryOutput cqueryOutput = (splitLines cqueryOutput).filterMap splitFirstTag := by
  refine ⟨joinLines_splitLines _, splitLines_no_newline _, ?_, ?_, rfl⟩
  · intro line _
    exact splitFirstTag_isSome_iff line
  · intro line _ id payload h
    obtain ⟨hline, hnone⟩ := splitFirstTag_eq_some line id payload h
    refine ⟨hline, ?_⟩
    intro hex
    have hsome := (splitFirstTag_isSome_iff id).mpr hex
    rw [hnone] at hsome
    simp at hsome

/-- C3 witness: on the output `"abc>>d>>e\nplain"`, the tagged line is
split at its first `>>` (with `"d>>e"` as the payload and a tag-free id),
the untagged line is dropped, and the parsed pair list is as expected. -/
theorem cquery_output_parse_spec_witness :
    joinLines (splitLines ("abc>>d>>e" ++ "\n" ++ "plain").data) =
      ("abc>>d>>e" ++ "\n" ++ "plain").data ∧
    ("abc>>d>>e" : String).data = ("abc" : String).data ++ '>' :: '>' :: ("d>>e" : String).data ∧
    (¬ ∃ a b, ("abc" : String).data = a ++ '>' :: '>' :: b) ∧
    parseCqueryOutput ("abc>>d>>e" ++ "\n" ++ "plain").data =
      [(("abc" : String).data, ("d>>e" : String).data)] := by
  have h := cquery_output_parse_spec ("abc>>d>>e" ++ "\n" ++ "plain").data
  have hmem : ("abc>>d>>e" : String).data ∈
      splitLines ("abc>>d>>e" ++ "\n" ++ "plain").data := by decide
  have hsplit := h.2.2.2.1 _ hmem ("abc" : String).data ("d>>e" : String).data (by decide)
  exact ⟨h.1, hsplit.1, hsplit.2, by decide⟩

/-- On success, `collectResults` resolves every requested key. -/
theorem collectResults_ok_complete (requests : List cqueryKey)
    (m : List (List Char × List Char)) (out errS : String) :
    ∀ res, collectResults requests m out errS = .ok res →
      ∀ k ∈ requests, ∃ v, lookupAssoc res k = some v := by
  induction requests with
  | nil =>
      intro res _ k hk
      exact absurd hk (List.not_mem_nil k)
  | cons val rest ih =>
      intro res h k hk
      cases hlook : lookupLast m (getCqueryId val).data with
      | none =>
          rw [collectResults, hlook] at h
          exact absurd h (by simp)
      | some r =>
          rw [collectResults, hlook] at h
          cases htail : collectResults rest m out errS with
          | error e =>
              rw [htail] at h
              exact absurd h (by simp [Except.map])
          | ok tail =>
              rw [htail] at h
              have hres : res = (val, String.mk r) :: tail := by
                simpa [Except.map] using h.symm
              subst hres
              by_cases hkv : k = val
              · exact ⟨String.mk r, by simp [lookupAssoc, hkv]⟩
              · rcases List.mem_cons.mp hk with rfl | hkr
                · exact absurd rfl hkv
                · obtain ⟨v, hv⟩ := ih tail htail k hkr
                  exact ⟨v, by simp [lookupAssoc, hkv, hv]⟩

/-- When some requested key's id is missing from the parsed output,
`collectResults` fails with an error whose message contains the missing
id. -/
theorem collectResults_missing_error (requests : List cqueryKey)
    (m : List (List Char × List Char)) (out errS : String)
    (h : ∃ k ∈ requests, lookupLast m (getCqueryId k).data = none) :
    ∃ e, collectResults requests m out errS = .error e ∧
      ∃ k ∈ requests, lookupLast m (getCqueryId k).data = none ∧
        (getCqueryId k).data <:+: e.data := by
  induction requests with
  | nil =>
      obtain ⟨k, hk, -⟩ := h
      exact absurd hk (List.not_mem_nil k)
  | cons val rest ih =>
      cases hlook : lookupLast m (getCqueryId val).data with
      | none =>
          refine ⟨_, by rw [collectResults, hlook], val, List.mem_cons_self _ _, hlook, ?_⟩
          refine ⟨("missing result for bazel target " : String).data,
            (". query output: [" ++ out ++ "], cquery err: [" ++ errS ++ "]" : String).data, ?_⟩
          simp [String.data_append, List.append_assoc]
      | some r =>
          obtain ⟨k, hk, hknone⟩ := h
          have hkrest : k ∈ rest := by
            rcases List.mem_cons.mp hk with rfl | hr
            · rw [hlook] at hknone
              exact absurd hknone (by simp)
            · exact hr
          obtain ⟨e, he, k2, hk2, hn2, hin2⟩ := ih ⟨k, hkrest, hknone⟩
          refine ⟨e, ?_, k2, List.mem_cons_of_mem _ hk2, hn2, hin2⟩
          rw [collectResults, hlook, he]
          rfl

/-- C2: when `InvokeBazel` succeeds, every key requested at invocation
time has an entry in the results map; when some requested key's cquery id
is absent from the parsed query output, `InvokeBazel` returns an error
whose message contains a missing cquery id. -/
theorem invokeBazel_completeness (paths : bazelPaths) (requests : List cqueryKey)
    (runner : bazelCommand → List String → String × String × Option String)
    (aqueryBuildStatements : String → Except String (List BuildStatement)) :
    (∀ ctx, (InvokeBazel paths requests runner aqueryBuildStatements).2 = .ok ctx →
      ∀ k ∈ requests, ∃ v, lookupAssoc ctx.results k = some v) ∧
    ((∃ k ∈ requests,
        lookupLast (parseCqueryOutput (runner cqueryCommand (cqueryExtraFlags paths)).1.data)
          (getCqueryId k).data = none) →
      ∃ e, (InvokeBazel paths requests runner aqueryBuildStatements).2 = .error e ∧
        ∃ k ∈ requests,
          lookupLast (parseCqueryOutput (runner cqueryCommand (cqueryExtraFlags paths)).1.data)
            (getCqueryId k).data = none ∧
          (getCqueryId k).data <:+: e.data) := by
  constructor
  · intro ctx hctx k hk
    unfold InvokeBazel at hctx
    dsimp only at hctx
    split at hctx
    · exact absurd hctx (by simp)
    · rename_i results hcoll
      split at hctx
      · exact absurd hctx (by simp)
      · split at hctx
        · exact absurd hctx (by simp)
        · rename_i stmts hparse
          split at hctx
          · exact absurd hctx (by simp)
          · have hctxeq : bazelContext.mk [] results stmts = ctx := by
              simpa using hctx
            subst hctxeq
            exact collectResults_ok_complete requests _ _ _ results hcoll k hk
  · intro hmiss
    obtain ⟨e, he, k, hk, hn, hin⟩ := collectResults_missing_error requests
      (parseCqueryOutput (runner cqueryCommand (cqueryExtraFlags paths)).1.data)
      (runner cqueryCommand (cqueryExtraFlags paths)).1
      (runner cqueryCommand (cqueryExtraFlags paths)).2.1 hmiss
    refine ⟨e, ?_, k, hk, hn, hin⟩
    unfold InvokeBazel
    dsimp only
    rw [he]

/-- C2 witness: a successful run resolves the demo request, and a run
whose query output is empty fails with an error containing the missing
id. -/
theorem invokeBazel_completeness_witness :
    (∃ v, lookupAssoc
      ((⟨[], [(keyDemo, "out/foo.so")], []⟩ : bazelContext)).results keyDemo = some v) ∧
    (∃ e, (InvokeBazel pathsDemo [keyDemo] runnerEmptyOutput (fun _ => .ok [])).2 = .error e ∧
      ∃ k ∈ [keyDemo],
        lookupLast (parseCqueryOutput
          (runnerEmptyOutput cqueryCommand (cqueryExtraFlags pathsDemo)).1.data)
          (getCqueryId k).data = none ∧
        (getCqueryId k).data <:+: e.data) := by
  have h1 := (invokeBazel_completeness pathsDemo [keyDemo] runnerDemo (fun _ => .ok [])).1
    ⟨[], [(keyDemo, "out/foo.so")], []⟩ rfl keyDemo (List.mem_cons_self _ _)
  have h2 := (invokeBazel_completeness pathsDemo [keyDemo] runnerEmptyOutput (fun _ => .ok [])).2
    ⟨keyDemo, List.mem_cons_self _ _, by decide⟩
  exact ⟨h1, h2⟩

end Soong
